import Mathlib

/-!
Verification of the idempotency orchestrator of the aws-lambda-powertools
repository. The repository ships only the documentation of the idempotency
package in its sources, so the orchestrator, the persistence capability and
the local cache are modelled from the specification (sections 3, 4, 5 and 7).
All definitions are shallow embeddings specialised to a single idempotency
key: the store enforces one record per key and distinct keys never interact,
so the store state for the key under study is an `Option IdempotencyRecord`
and the per-process local cache entry for that key is likewise an
`Option IdempotencyRecord`.
-/

namespace Idem

/-- Modelled from the spec: the persisted record status (spec section 3).
EXPIRED is derived at read time from the timestamps and is never persisted,
so it is not a constructor here. -/
inductive Status where
  | inProgress
  | complete
deriving DecidableEq, Repr

/-- Modelled from the spec: the idempotency record stored for a key
(spec section 3). `responseData` is present only when COMPLETE;
`payloadHash` is present only when payload validation is configured. -/
structure IdempotencyRecord where
  status : Status
  expiryTimestamp : Nat
  inProgressExpiryTimestamp : Option Nat
  responseData : Option String
  payloadHash : Option String
deriving DecidableEq, Repr

/-- Modelled from the spec: a record is expired once its `expiryTimestamp`
is in the past (spec sections 3 and 4.4). -/
def recordExpired (r : IdempotencyRecord) (now : Nat) : Bool :=
  r.expiryTimestamp < now

/-- Modelled from the spec: an IN_PROGRESS record is stale (abandoned) once
its `inProgressExpiryTimestamp` is in the past (spec sections 3 and 4.4). -/
def staleInProgress (r : IdempotencyRecord) (now : Nat) : Bool :=
  if r.status = Status.inProgress then
    match r.inProgressExpiryTimestamp with
    | some t => t < now
    | none => false
  else false

/-- Modelled from the spec: the acceptance condition of the conditional
`putInProgress` (spec section 4.2): it succeeds when no record exists, or
when the existing record is expired by time or is a stale in-progress
record (both being logically equivalent to absent and hence eligible for
takeover). -/
def takeoverEligible (store : Option IdempotencyRecord) (now : Nat) : Bool :=
  match store with
  | none => true
  | some r => recordExpired r now || staleInProgress r now

/-- Modelled from the spec: the configuration surface consumed by the
orchestrator (spec section 6). `payloadValidationEnabled` models whether a
`payloadValidationPath` is configured; `remainingBudget` models the optional
remaining-invocation-time budget registered by the caller. -/
structure IdempotencyConfig where
  throwOnNoIdempotencyKey : Bool := false
  expiresAfterSeconds : Nat := 3600
  useLocalCache : Bool := false
  payloadValidationEnabled : Bool := false
  remainingBudget : Option Nat := none
deriving DecidableEq, Repr

/-- Modelled from the spec: the fresh `inProgressExpiryTimestamp` is computed
from the configured TTL and capped by the remaining invocation time budget
when the caller registered one (spec sections 4.4 step 3 and 5). -/
def freshInProgressExpiry (cfg : IdempotencyConfig) (now : Nat) : Nat :=
  match cfg.remainingBudget with
  | some b => now + min cfg.expiresAfterSeconds b
  | none => now + cfg.expiresAfterSeconds

/-- Modelled from the spec: the outcome of key derivation (spec section 4.1).
Extraction of the configured key path either yields a value, or yields an
empty result, in which case derivation fails in strict mode and signals
bypass otherwise. -/
inductive DeriveResult where
  | missingKey
  | bypass
  | derived (payloadHash : Option String)
deriving DecidableEq, Repr

/-- Modelled from the spec: `deriveKey` (spec section 4.1). The extraction of
the key path from the payload is represented by its result `extracted`
(`none` models an empty or undefined extraction); the validation-path hash is
computed only when payload validation is configured. -/
def deriveKey (cfg : IdempotencyConfig) (extracted : Option String)
    (validationHash : Option String) : DeriveResult :=
  match extracted with
  | none =>
    if cfg.throwOnNoIdempotencyKey then DeriveResult.missingKey
    else DeriveResult.bypass
  | some _ =>
    DeriveResult.derived
      (if cfg.payloadValidationEnabled then validationHash else none)

/-- Modelled from the spec: replay is permitted only when no payload
validation is configured or the stored `payloadHash` matches the hash of the
current call (spec sections 3 and 4.4 step 3a). -/
def validationOk (cfg : IdempotencyConfig) (callHash : Option String)
    (r : IdempotencyRecord) : Bool :=
  if cfg.payloadValidationEnabled then decide (r.payloadHash = callHash)
  else true

/-- Modelled from the spec: the producer capability, a callable that either
returns a serialisable value or fails with an arbitrary error
(spec section 6). Its predetermined outcome for one call is a value. -/
inductive ProducerOutcome where
  | ok (value : String)
  | err (msg : String)
deriving DecidableEq, Repr

/-- Modelled from the spec: the observable outcome of one `process` call
(spec sections 4.4 and 7). `completedOk` is a result produced by actually
invoking the producer; `replayed` is a stored result returned without
invoking the producer. -/
inductive ProcessOutcome where
  | completedOk (value : String)
  | replayed (value : String)
  | alreadyInProgress
  | validationError
  | persistenceError
  | missingKeyError
  | producerError (msg : String)
deriving DecidableEq, Repr

/-- Modelled from the spec: the four persistence operations the orchestrator
may issue (spec section 4.2), recorded in a per-call trace so that absence of
persistence interaction is observable. -/
inductive StoreOp where
  | put
  | get
  | update
  | del
deriving DecidableEq, Repr

/-- Modelled from the spec: fault injection for the store transport
(spec sections 4.2 and 7): `updateConnFail` and `deleteConnFail` model
`PersistenceConnectionError` on the respective operation, and
`recordVanishesBeforeUpdate` models the record having vanished so that
`updateComplete` fails with `RecordNotFound`. -/
structure StoreFaults where
  updateConnFail : Bool := false
  deleteConnFail : Bool := false
  recordVanishesBeforeUpdate : Bool := false
deriving DecidableEq, Repr

/-- Modelled from the spec: the static context of one `process` call: the
configuration, the injected store faults, the key-path extraction result,
the validation-path hash and the predetermined producer outcome. -/
structure CallerCtx where
  cfg : IdempotencyConfig
  faults : StoreFaults
  extracted : Option String
  validationHash : Option String
  producer : ProducerOutcome
deriving DecidableEq, Repr

/-- Payload hash attached by this call to the records it writes: the
validation hash when payload validation is configured, nothing otherwise. -/
def callHash (ctx : CallerCtx) : Option String :=
  if ctx.cfg.payloadValidationEnabled then ctx.validationHash else none

/-- Modelled from the spec: the fresh IN_PROGRESS record written by an
accepted conditional put (spec section 4.4 step 3). -/
def freshRecord (ctx : CallerCtx) (now : Nat) : IdempotencyRecord :=
  { status := Status.inProgress
    expiryTimestamp := now + ctx.cfg.expiresAfterSeconds
    inProgressExpiryTimestamp := some (freshInProgressExpiry ctx.cfg now)
    responseData := none
    payloadHash := callHash ctx }

/-- Modelled from the spec: the local-cache fast path condition
(spec section 4.4 step 2): present, COMPLETE, unexpired re-checked at read
time, and validation-matching. -/
def cacheHit (ctx : CallerCtx) (now : Nat) (c : IdempotencyRecord) : Bool :=
  decide (c.status = Status.complete) && ! recordExpired c now
    && validationOk ctx.cfg (callHash ctx) c

/-- Modelled from the spec: the control point a `process` call is at between
two of its atomic store interactions (spec section 4.4, one constructor per
suspension point listed in section 5). -/
inductive Phase where
  | start
  | fetch
  | retry
  | run
  | storeResult (value : String)
  | cleanup (msg : String)
  | bypassRun
  | finished (outcome : ProcessOutcome)
deriving DecidableEq, Repr

/-- Local state of one `process` call: its phase, its process-local cache
entry for the key, whether it has invoked the producer, how many conditional
puts it attempted, the record it observed on its conflict-time get together
with the observation time, and the trace of its persistence operations. -/
structure CallerState where
  phase : Phase := Phase.start
  cache : Option IdempotencyRecord := none
  invoked : Bool := false
  puts : Nat := 0
  observed : Option (Option IdempotencyRecord × Nat) := none
  trace : List StoreOp := []
deriving DecidableEq, Repr

/-- Modelled from the spec: one conditional put attempt (spec section 4.4
step 3 and the tie-break rule of section 4.4). A first conflict branches to
the conflict-time get; a conflict on the single permitted retry fails with
`IdempotencyAlreadyInProgressError`. -/
def attemptPut (ctx : CallerCtx) (now : Nat) (cs : CallerState)
    (store : Option IdempotencyRecord) (isRetry : Bool) :
    CallerState × Option IdempotencyRecord :=
  if takeoverEligible store now then
    ({ cs with
        phase := Phase.run
        puts := cs.puts + 1
        trace := cs.trace ++ [StoreOp.put] },
      some (freshRecord ctx now))
  else if isRetry then
    ({ cs with
        phase := Phase.finished ProcessOutcome.alreadyInProgress
        puts := cs.puts + 1
        trace := cs.trace ++ [StoreOp.put] }, store)
  else
    ({ cs with
        phase := Phase.fetch
        puts := cs.puts + 1
        trace := cs.trace ++ [StoreOp.put] }, store)

/-- Modelled from the spec: one atomic step of a `process` call against the
shared store (spec section 4.4 steps 1 to 4, section 4.2 for the operation
semantics, section 7 for the error taxonomy). A get that finds no record
observes a key that is logically absent, which is takeover eligible, so it
branches like the expired and stale cases to the single bounded retry. -/
def stepCaller (ctx : CallerCtx) (now : Nat) (cs : CallerState)
    (store : Option IdempotencyRecord) :
    CallerState × Option IdempotencyRecord :=
  match cs.phase with
  | Phase.start =>
    match deriveKey ctx.cfg ctx.extracted ctx.validationHash with
    | DeriveResult.missingKey =>
      ({ cs with phase := Phase.finished ProcessOutcome.missingKeyError }, store)
    | DeriveResult.bypass => ({ cs with phase := Phase.bypassRun }, store)
    | DeriveResult.derived _ =>
      match cs.cache, ctx.cfg.useLocalCache with
      | some c, true =>
        if cacheHit ctx now c then
          ({ cs with
              phase := Phase.finished
                (ProcessOutcome.replayed (c.responseData.getD "")) }, store)
        else attemptPut ctx now cs store false
      | _, _ => attemptPut ctx now cs store false
  | Phase.fetch =>
    let cs1 := { cs with
                  observed := some (store, now)
                  trace := cs.trace ++ [StoreOp.get] }
    match store with
    | some r =>
      if decide (r.status = Status.complete) && ! recordExpired r now then
        if validationOk ctx.cfg (callHash ctx) r then
          ({ cs1 with
              phase := Phase.finished
                (ProcessOutcome.replayed (r.responseData.getD ""))
              cache := if ctx.cfg.useLocalCache then some r else cs.cache },
            store)
        else
          ({ cs1 with phase := Phase.finished ProcessOutcome.validationError },
            store)
      else if decide (r.status = Status.inProgress) && ! staleInProgress r now then
        ({ cs1 with phase := Phase.finished ProcessOutcome.alreadyInProgress },
          store)
      else
        ({ cs1 with phase := Phase.retry }, store)
    | none => ({ cs1 with phase := Phase.retry }, store)
  | Phase.retry => attemptPut ctx now cs store true
  | Phase.run =>
    match ctx.producer with
    | ProducerOutcome.ok v =>
      ({ cs with
          phase := Phase.storeResult v
          invoked := true }, store)
    | ProducerOutcome.err e =>
      ({ cs with
          phase := Phase.cleanup e
          invoked := true }, store)
  | Phase.storeResult v =>
    let store1 := if ctx.faults.recordVanishesBeforeUpdate then none else store
    let cs1 := { cs with trace := cs.trace ++ [StoreOp.update] }
    if ctx.faults.updateConnFail then
      ({ cs1 with phase := Phase.finished ProcessOutcome.persistenceError },
        store1)
    else
      match store1 with
      | none =>
        ({ cs1 with phase := Phase.finished ProcessOutcome.persistenceError },
          store1)
      | some r =>
        let r1 := { r with
                    status := Status.complete
                    responseData := some v
                    expiryTimestamp := now + ctx.cfg.expiresAfterSeconds }
        ({ cs1 with
            phase := Phase.finished (ProcessOutcome.completedOk v)
            cache := if ctx.cfg.useLocalCache then some r1 else cs.cache },
          some r1)
  | Phase.cleanup e =>
    let cs1 := { cs with trace := cs.trace ++ [StoreOp.del] }
    if ctx.faults.deleteConnFail then
      ({ cs1 with phase := Phase.finished (ProcessOutcome.producerError e) },
        store)
    else
      ({ cs1 with phase := Phase.finished (ProcessOutcome.producerError e) },
        none)
  | Phase.bypassRun =>
    match ctx.producer with
    | ProducerOutcome.ok v =>
      ({ cs with
          phase := Phase.finished (ProcessOutcome.completedOk v)
          invoked := true }, store)
    | ProducerOutcome.err e =>
      ({ cs with
          phase := Phase.finished (ProcessOutcome.producerError e)
          invoked := true }, store)
  | Phase.finished _ => (cs, store)

/-- One atomic step on a paired (caller state, store state). -/
def stepPair (ctx : CallerCtx) (now : Nat)
    (s : CallerState × Option IdempotencyRecord) :
    CallerState × Option IdempotencyRecord :=
  stepCaller ctx now s.1 s.2

/-- Initial local state of a `process` call, with the given process-local
cache content for the key. -/
def initCaller (cache : Option IdempotencyRecord) : CallerState :=
  { phase := Phase.start
    cache := cache
    invoked := false
    puts := 0
    observed := none
    trace := [] }

/-- Modelled from the spec: one full sequential `process` call
(spec section 4.4) run to completion against the store state for the key.
Six steps suffice: the longest path start, fetch, retry, run, storeResult
reaches a `finished` phase in five steps and `finished` is absorbing. -/
def processSeq (ctx : CallerCtx) (now : Nat) (store : Option IdempotencyRecord)
    (cache : Option IdempotencyRecord) :
    CallerState × Option IdempotencyRecord :=
  stepPair ctx now (stepPair ctx now (stepPair ctx now (stepPair ctx now
    (stepPair ctx now (stepPair ctx now (initCaller cache, store))))))

/-- Modelled from the spec: the COMPLETE record left in the store by a call
that owned the generation and completed with value `v` at time `now`
(spec section 4.4 step 4). -/
def completedFreshRecord (ctx : CallerCtx) (now : Nat) (v : String) :
    IdempotencyRecord :=
  { status := Status.complete
    expiryTimestamp := now + ctx.cfg.expiresAfterSeconds
    inProgressExpiryTimestamp := some (freshInProgressExpiry ctx.cfg now)
    responseData := some v
    payloadHash := callHash ctx }

/-- Modelled from the spec: outcome of follow-up code that an adapter runs
after the wrapped idempotent function returned (spec section 2; the
Handling exceptions section of the idempotency documentation). -/
inductive PostOutcome where
  | ok
  | err (msg : String)
deriving DecidableEq, Repr

/-- Modelled from the spec: an adapter invocation composing a `process` call
with follow-up code outside the scope of the wrapped function. The follow-up
runs only when the wrapped function returned successfully, has no access to
the persistence store, and its error (the first component, when present)
propagates to the adapter caller. -/
def invokeWithPost (ctx : CallerCtx) (now : Nat)
    (store cache : Option IdempotencyRecord) (post : PostOutcome) :
    Option String × Option IdempotencyRecord :=
  let r := processSeq ctx now store cache
  match r.1.phase, post with
  | Phase.finished (ProcessOutcome.completedOk _), PostOutcome.err e =>
    (some e, r.2)
  | _, _ => (none, r.2)

/-- Global state of `n` concurrent `process` calls for the same key: the
local state of every caller and the shared store state for the key. -/
structure SysState (n : Nat) where
  callers : Fin n → CallerState
  store : Option IdempotencyRecord

/-- Modelled from the spec: one atomic step of the interleaved system
(spec section 5): the scheduled caller performs its next atomic action at
the scheduled wall-clock time against the shared store. -/
def sysStep {n : Nat} (ctxs : Fin n → CallerCtx) (s : SysState n)
    (ev : Fin n × Nat) : SysState n :=
  let r := stepCaller (ctxs ev.1) ev.2 (s.callers ev.1) s.store
  { callers := Function.update s.callers ev.1 r.1
    store := r.2 }

/-- Run the interleaved system along a schedule, a list of
(caller index, wall-clock time) pairs chosen by an arbitrary scheduler. -/
def runSched {n : Nat} (ctxs : Fin n → CallerCtx) :
    List (Fin n × Nat) → SysState n → SysState n
  | [], s => s
  | ev :: rest, s => runSched ctxs rest (sysStep ctxs s ev)

/-- Initial system state: every caller at `start` with an empty local cache,
and the given store content for the key. -/
def initSys (n : Nat) (store : Option IdempotencyRecord) : SysState n :=
  { callers := fun _ => initCaller none
    store := store }

/-- Freshness of a record for a whole schedule: at every scheduled step time
the record is neither expired nor a stale in-progress record. -/
def freshForSched {n : Nat} (sched : List (Fin n × Nat))
    (r : IdempotencyRecord) : Prop :=
  ∀ e ∈ sched, recordExpired r e.2 = false ∧ staleInProgress r e.2 = false

/-- Schedule window condition: every scheduled step time lies within the
in-progress expiry window of a record written by any scheduled caller at any
scheduled time. This is the formal reading of the first generation still
being active throughout the race. -/
def schedWithinWindow {n : Nat} (ctxs : Fin n → CallerCtx)
    (sched : List (Fin n × Nat)) : Prop :=
  ∀ e ∈ sched, ∀ e' ∈ sched,
    e'.2 ≤ freshInProgressExpiry (ctxs e.1).cfg e.2

/-- Invariant of the at-most-one-execution argument: either nothing happened
yet (no record, all callers initial), or there is a winner `w` whose
accepted put created the sole record `r`, `w` is the only caller that can
have invoked its producer, `r` carries the common payload hash and stays
fresh for the remaining schedule, the record status follows the phase of
`w`, and every other caller is before its conflict get or finished with a
replay of the winner value or with the in-progress signal. -/
def atMostOneInv {n : Nat} (ctxs : Fin n → CallerCtx) (vals : Fin n → String)
    (sched : List (Fin n × Nat)) (s : SysState n) : Prop :=
  (s.store = none ∧ ∀ j, s.callers j = initCaller none) ∨
  ∃ w : Fin n, ∃ r : IdempotencyRecord,
    s.store = some r ∧
    r.payloadHash = callHash (ctxs w) ∧
    freshForSched sched r ∧
    ((s.callers w).phase = Phase.run ∧ (s.callers w).invoked = false ∧
        r.status = Status.inProgress ∨
      (s.callers w).phase = Phase.storeResult (vals w) ∧
        (s.callers w).invoked = true ∧ r.status = Status.inProgress ∨
      (s.callers w).phase = Phase.finished (ProcessOutcome.completedOk (vals w)) ∧
        (s.callers w).invoked = true ∧ r.status = Status.complete ∧
        r.responseData = some (vals w)) ∧
    (∀ j, j ≠ w → (s.callers j).invoked = false ∧
      ((s.callers j).phase = Phase.start ∧ (s.callers j).cache = none ∨
        (s.callers j).phase = Phase.fetch ∨
        (s.callers j).phase = Phase.finished (ProcessOutcome.replayed (vals w)) ∨
        (s.callers j).phase = Phase.finished ProcessOutcome.alreadyInProgress))

/-- Per-caller invariant of the bounded-retry argument: the number of
conditional put attempts is bounded by the phase, a caller at the retry
phase has observed a takeover-eligible state at its conflict get, and a
caller finished with the in-progress signal observed either a fresh
IN_PROGRESS record at its single conflict get, or a takeover-eligible state
followed by a conflicting second put. -/
def callerInv (cs : CallerState) : Prop :=
  (match cs.phase with
   | Phase.start => cs.puts = 0
   | Phase.fetch => cs.puts = 1
   | Phase.retry => cs.puts = 1 ∧ ∃ obs t, cs.observed = some (obs, t) ∧
       takeoverEligible obs t = true
   | Phase.bypassRun => cs.puts = 0
   | _ => cs.puts ≤ 2) ∧
  (cs.phase = Phase.finished ProcessOutcome.alreadyInProgress →
    ∃ obs t, cs.observed = some (obs, t) ∧
      ((cs.puts = 1 ∧ ∃ r, obs = some r ∧ r.status = Status.inProgress ∧
          staleInProgress r t = false) ∨
        (cs.puts = 2 ∧ takeoverEligible obs t = true)))

section SequentialLemmas

/-- Happy path of a call that owns the generation: when the conditional put
is accepted and the producer succeeds with no store fault on the update, the
call completes, invokes the producer, and leaves the COMPLETE record with the
produced value in the store. -/
lemma processSeq_owner_ok (cfg : IdempotencyConfig) (f : StoreFaults)
    (k v : String) (vh : Option String) (now : Nat)
    (store : Option IdempotencyRecord)
    (helig : takeoverEligible store now = true)
    (hupd : f.updateConnFail = false)
    (hvan : f.recordVanishesBeforeUpdate = false) :
    processSeq ⟨cfg, f, some k, vh, ProducerOutcome.ok v⟩ now store none =
      ⟨{ phase := Phase.finished (ProcessOutcome.completedOk v)
         cache := if cfg.useLocalCache then
            some (completedFreshRecord ⟨cfg, f, some k, vh, ProducerOutcome.ok v⟩ now v)
          else none
         invoked := true
         puts := 1
         observed := none
         trace := [StoreOp.put, StoreOp.update] },
       some (completedFreshRecord ⟨cfg, f, some k, vh, ProducerOutcome.ok v⟩ now v)⟩ := by
  simp [processSeq, stepPair, stepCaller, initCaller, attemptPut, deriveKey,
    helig, hupd, hvan, freshRecord, completedFreshRecord]

end SequentialLemmas

section BoundedRetryLemmas

/-- The initial caller state satisfies the bounded-retry invariant. -/
lemma callerInv_init (cache : Option IdempotencyRecord) :
    callerInv (initCaller cache) := by
  simp [callerInv, initCaller]

/-- One atomic step preserves the bounded-retry invariant of the stepping
caller, whatever the shared store holds. -/
lemma stepCaller_callerInv (ctx : CallerCtx) (t : Nat) (cs : CallerState)
    (store : Option IdempotencyRecord) (h : callerInv cs) :
    callerInv (stepCaller ctx t cs store).1 := by
  obtain ⟨h1, h2⟩ := h
  cases hph : cs.phase with
  | start =>
    rw [hph] at h1
    simp only at h1
    rcases hdk : deriveKey ctx.cfg ctx.extracted ctx.validationHash with _ | _ | ph
    · simp [callerInv, stepCaller, hph, hdk]
      omega
    · simp [callerInv, stepCaller, hph, hdk, h1]
    · cases hc : cs.cache with
      | none =>
        by_cases helig : takeoverEligible store t = true
        · simp [callerInv, stepCaller, hph, hdk, hc, attemptPut, helig, h1]
        · simp only [Bool.not_eq_true] at helig
          cases hu : ctx.cfg.useLocalCache <;>
            simp [callerInv, stepCaller, hph, hdk, hc, hu, attemptPut, helig, h1]
      | some c =>
        cases hu : ctx.cfg.useLocalCache with
        | true =>
          by_cases hch : cacheHit ctx t c = true
          · simp [callerInv, stepCaller, hph, hdk, hc, hu, hch, h1]
          · simp only [Bool.not_eq_true] at hch
            by_cases helig : takeoverEligible store t = true
            · simp [callerInv, stepCaller, hph, hdk, hc, hu, hch, attemptPut,
                helig, h1]
            · simp only [Bool.not_eq_true] at helig
              simp [callerInv, stepCaller, hph, hdk, hc, hu, hch, attemptPut,
                helig, h1]
        | false =>
          by_cases helig : takeoverEligible store t = true
          · simp [callerInv, stepCaller, hph, hdk, hc, hu, attemptPut, helig, h1]
          · simp only [Bool.not_eq_true] at helig
            simp [callerInv, stepCaller, hph, hdk, hc, hu, attemptPut, helig, h1]
  | fetch =>
    rw [hph] at h1
    simp only at h1
    cases hs : store with
    | none =>
      simp [callerInv, stepCaller, hph, hs, h1]
      exact ⟨none, t, ⟨rfl, rfl⟩, rfl⟩
    | some r =>
      by_cases b1 : (decide (r.status = Status.complete) && ! recordExpired r t) = true
      · by_cases hv : validationOk ctx.cfg (callHash ctx) r = true
        · simp [callerInv, stepCaller, hph, hs, b1, hv, h1]
        · simp only [Bool.not_eq_true] at hv
          simp [callerInv, stepCaller, hph, hs, b1, hv, h1]
      · simp only [Bool.not_eq_true] at b1
        by_cases b2 : (decide (r.status = Status.inProgress) && ! staleInProgress r t) = true
        · have hr1 : r.status = Status.inProgress := by
            rcases Bool.and_eq_true _ _ |>.mp b2 with ⟨hx, _⟩
            exact of_decide_eq_true hx
          have hr2 : staleInProgress r t = false := by
            rcases Bool.and_eq_true _ _ |>.mp b2 with ⟨_, hx⟩
            simpa using hx
          simp [callerInv, stepCaller, hph, hs, b1, b2, h1]
          exact ⟨some r, t, ⟨rfl, rfl⟩, r, rfl, hr1, hr2⟩
        · simp only [Bool.not_eq_true] at b2
          have helig : takeoverEligible (some r) t = true := by
            cases hst : r.status with
            | inProgress =>
              have : staleInProgress r t = true := by
                rcases Bool.and_eq_false_iff.mp b2 with hx | hx
                · simp [hst] at hx
                · simpa using hx
              simp [takeoverEligible, this]
            | complete =>
              have : recordExpired r t = true := by
                rcases Bool.and_eq_false_iff.mp b1 with hx | hx
                · simp [hst] at hx
                · simpa using hx
              simp [takeoverEligible, this]
          simp [callerInv, stepCaller, hph, hs, b1, b2, h1]
          exact ⟨some r, t, ⟨rfl, rfl⟩, helig⟩
  | retry =>
    rw [hph] at h1
    simp only at h1
    obtain ⟨hp, obs, t0, hobs, helig0⟩ := h1
    by_cases helig : takeoverEligible store t = true
    · simp [callerInv, stepCaller, hph, attemptPut, helig, hp]
    · simp only [Bool.not_eq_true] at helig
      simp [callerInv, stepCaller, hph, attemptPut, helig, hp, hobs]
      exact ⟨obs, t0, ⟨rfl, rfl⟩, helig0⟩
  | run =>
    rw [hph] at h1
    simp only at h1
    cases hpr : ctx.producer <;>
      simp [callerInv, stepCaller, hph, hpr, h1]
  | storeResult v =>
    rw [hph] at h1
    simp only at h1
    cases hu : ctx.faults.updateConnFail with
    | true =>
      simp [callerInv, stepCaller, hph, hu, h1]
    | false =>
      cases hvan : ctx.faults.recordVanishesBeforeUpdate with
      | true => simp [callerInv, stepCaller, hph, hu, hvan, h1]
      | false =>
        cases hs : store <;>
          simp [callerInv, stepCaller, hph, hu, hvan, hs, h1]
  | cleanup e =>
    rw [hph] at h1
    simp only at h1
    cases hd : ctx.faults.deleteConnFail <;>
      simp [callerInv, stepCaller, hph, hd, h1]
  | bypassRun =>
    rw [hph] at h1
    simp only at h1
    cases hpr : ctx.producer <;>
      simp [callerInv, stepCaller, hph, hpr, h1]
  | finished o =>
    simp only [stepCaller, hph]
    exact ⟨by rw [hph] at h1 ⊢; exact h1, by rw [hph] at h2 ⊢; exact h2⟩

/-- The bounded-retry invariant of every caller is preserved along any
schedule. -/
lemma runSched_callerInv {n : Nat} (ctxs : Fin n → CallerCtx)
    (sched : List (Fin n × Nat)) (s : SysState n)
    (h : ∀ i, callerInv (s.callers i)) :
    ∀ i, callerInv ((runSched ctxs sched s).callers i) := by
  induction sched generalizing s with
  | nil => exact h
  | cons ev rest ih =>
    refine ih (sysStep ctxs s ev) ?_
    intro i
    by_cases hi : i = ev.1
    · subst hi
      simp only [sysStep, Function.update_same]
      exact stepCaller_callerInv (ctxs ev.1) ev.2 (s.callers ev.1) s.store (h ev.1)
    · simp only [sysStep, Function.update_noteq hi]
      exact h i

/-- The bounded-retry invariant bounds the number of conditional put
attempts by two in every phase. -/
lemma callerInv_puts_le (cs : CallerState) (h : callerInv cs) :
    cs.puts ≤ 2 := by
  obtain ⟨h1, _⟩ := h
  cases hph : cs.phase <;> rw [hph] at h1 <;> simp only at h1 <;> omega

end BoundedRetryLemmas

section AtMostOneLemmas

/-- The capped in-progress expiry never exceeds the plain TTL expiry. -/
lemma freshInProgressExpiry_le (cfg : IdempotencyConfig) (t : Nat) :
    freshInProgressExpiry cfg t ≤ t + cfg.expiresAfterSeconds := by
  cases hb : cfg.remainingBudget with
  | none => simp [freshInProgressExpiry, hb]
  | some b =>
    simp only [freshInProgressExpiry, hb]
    have := Nat.min_le_left cfg.expiresAfterSeconds b
    omega

/-- A fresh IN_PROGRESS record is neither expired nor stale at any time
within its in-progress expiry window. -/
lemma freshRecord_fresh (ctx : CallerCtx) (t u : Nat)
    (h : u ≤ freshInProgressExpiry ctx.cfg t) :
    recordExpired (freshRecord ctx t) u = false ∧
      staleInProgress (freshRecord ctx t) u = false := by
  have hle := freshInProgressExpiry_le ctx.cfg t
  constructor
  · simp only [recordExpired, freshRecord, decide_eq_false_iff_not]
    omega
  · have hnot : ¬ (freshInProgressExpiry ctx.cfg t < u) := by omega
    simp [staleInProgress, freshRecord, hnot]

/-- Freshness for a schedule restricts to its tail. -/
lemma freshForSched_tail {n : Nat} (ev : Fin n × Nat)
    (rest : List (Fin n × Nat)) (r : IdempotencyRecord)
    (h : freshForSched (ev :: rest) r) : freshForSched rest r :=
  fun e he => h e (List.mem_cons_of_mem _ he)

/-- The schedule window condition restricts to the tail of a schedule. -/
lemma schedWithinWindow_tail {n : Nat} (ctxs : Fin n → CallerCtx)
    (ev : Fin n × Nat) (rest : List (Fin n × Nat))
    (h : schedWithinWindow ctxs (ev :: rest)) : schedWithinWindow ctxs rest :=
  fun e he e' he' =>
    h e (List.mem_cons_of_mem _ he) e' (List.mem_cons_of_mem _ he')

/-- Validation always succeeds against a record carrying the same hash. -/
lemma validationOk_self (cfg : IdempotencyConfig) (h : Option String)
    (r : IdempotencyRecord) (hr : r.payloadHash = h) :
    validationOk cfg h r = true := by
  cases hv : cfg.payloadValidationEnabled <;> simp [validationOk, hv, hr]

/-- Computation rule: a caller at start with an empty cache and an accepted
conditional put proceeds to run and writes the fresh record. -/
lemma stepCaller_start_to_run (ctx : CallerCtx) (t : Nat) (cs : CallerState)
    (store : Option IdempotencyRecord) (k : String)
    (hph : cs.phase = Phase.start) (hc : cs.cache = none)
    (hk : ctx.extracted = some k)
    (helig : takeoverEligible store t = true) :
    stepCaller ctx t cs store =
      ({ cs with
          phase := Phase.run
          puts := cs.puts + 1
          trace := cs.trace ++ [StoreOp.put] },
        some (freshRecord ctx t)) := by
  cases hu : ctx.cfg.useLocalCache <;>
    simp [stepCaller, hph, hc, hk, hu, deriveKey, attemptPut, helig]

/-- Computation rule: a caller at start with an empty cache and a rejected
conditional put proceeds to the conflict get. -/
lemma stepCaller_start_to_fetch (ctx : CallerCtx) (t : Nat) (cs : CallerState)
    (store : Option IdempotencyRecord) (k : String)
    (hph : cs.phase = Phase.start) (hc : cs.cache = none)
    (hk : ctx.extracted = some k)
    (helig : takeoverEligible store t = false) :
    stepCaller ctx t cs store =
      ({ cs with
          phase := Phase.fetch
          puts := cs.puts + 1
          trace := cs.trace ++ [StoreOp.put] }, store) := by
  cases hu : ctx.cfg.useLocalCache <;>
    simp [stepCaller, hph, hc, hk, hu, deriveKey, attemptPut, helig]

/-- Computation rule: the conflict get on a fresh IN_PROGRESS record fails
with the in-progress signal. -/
lemma stepCaller_fetch_inprogress (ctx : CallerCtx) (t : Nat)
    (cs : CallerState) (r : IdempotencyRecord)
    (hph : cs.phase = Phase.fetch) (hst : r.status = Status.inProgress)
    (hstale : staleInProgress r t = false) :
    stepCaller ctx t cs (some r) =
      ({ cs with
          phase := Phase.finished ProcessOutcome.alreadyInProgress
          observed := some (some r, t)
          trace := cs.trace ++ [StoreOp.get] }, some r) := by
  simp [stepCaller, hph, hst, hstale]

/-- Computation rule: the conflict get on a fresh COMPLETE record with a
matching validation hash replays the stored response. -/
lemma stepCaller_fetch_complete (ctx : CallerCtx) (t : Nat)
    (cs : CallerState) (r : IdempotencyRecord)
    (hph : cs.phase = Phase.fetch) (hst : r.status = Status.complete)
    (hexp : recordExpired r t = false)
    (hv : validationOk ctx.cfg (callHash ctx) r = true) :
    stepCaller ctx t cs (some r) =
      ({ cs with
          phase := Phase.finished
            (ProcessOutcome.replayed (r.responseData.getD ""))
          observed := some (some r, t)
          trace := cs.trace ++ [StoreOp.get]
          cache := if ctx.cfg.useLocalCache then some r else cs.cache },
        some r) := by
  simp [stepCaller, hph, hst, hexp, hv]

/-- Computation rule: a caller at run with a succeeding producer invokes it
and proceeds to store the result. -/
lemma stepCaller_run_ok (ctx : CallerCtx) (t : Nat) (cs : CallerState)
    (store : Option IdempotencyRecord) (v : String)
    (hph : cs.phase = Phase.run) (hpr : ctx.producer = ProducerOutcome.ok v) :
    stepCaller ctx t cs store =
      ({ cs with
          phase := Phase.storeResult v
          invoked := true }, store) := by
  simp [stepCaller, hph, hpr]

/-- Computation rule: a fault-free update of an existing record completes
the call and stores the COMPLETE record with the produced value. -/
lemma stepCaller_storeResult_ok (ctx : CallerCtx) (t : Nat)
    (cs : CallerState) (r : IdempotencyRecord) (v : String)
    (hph : cs.phase = Phase.storeResult v)
    (hupd : ctx.faults.updateConnFail = false)
    (hvan : ctx.faults.recordVanishesBeforeUpdate = false) :
    stepCaller ctx t cs (some r) =
      ({ cs with
          phase := Phase.finished (ProcessOutcome.completedOk v)
          trace := cs.trace ++ [StoreOp.update]
          cache := if ctx.cfg.useLocalCache then
              some { r with
                status := Status.complete
                responseData := some v
                expiryTimestamp := t + ctx.cfg.expiresAfterSeconds }
            else cs.cache },
        some { r with
          status := Status.complete
          responseData := some v
          expiryTimestamp := t + ctx.cfg.expiresAfterSeconds }) := by
  simp [stepCaller, hph, hupd, hvan]

/-- Computation rule: a finished caller does not move and does not touch the
store. -/
lemma stepCaller_finished (ctx : CallerCtx) (t : Nat) (cs : CallerState)
    (store : Option IdempotencyRecord) (o : ProcessOutcome)
    (hph : cs.phase = Phase.finished o) :
    stepCaller ctx t cs store = (cs, store) := by
  simp [stepCaller, hph]

/-- One atomic step preserves the at-most-one-execution invariant, shrinking
the schedule it refers to by the consumed event. -/
lemma atMostOne_step {n : Nat} (ctxs : Fin n → CallerCtx)
    (vals : Fin n → String)
    (hext : ∀ j, ∃ k, (ctxs j).extracted = some k)
    (hprod : ∀ j, (ctxs j).producer = ProducerOutcome.ok (vals j))
    (hupd : ∀ j, (ctxs j).faults.updateConnFail = false)
    (hvan : ∀ j, (ctxs j).faults.recordVanishesBeforeUpdate = false)
    (hhash : ∀ j j', callHash (ctxs j) = callHash (ctxs j'))
    (ev : Fin n × Nat) (rest : List (Fin n × Nat)) (s : SysState n)
    (hwin : schedWithinWindow ctxs (ev :: rest))
    (hinv : atMostOneInv ctxs vals (ev :: rest) s) :
    atMostOneInv ctxs vals rest (sysStep ctxs s ev) := by
  obtain ⟨i, t⟩ := ev
  rcases hinv with ⟨hst, hcall⟩ | ⟨w, r, hstore, hhashr, hfreshr, hw, hlosers⟩
  · obtain ⟨k, hk⟩ := hext i
    have hcs := hcall i
    have helig : takeoverEligible s.store t = true := by rw [hst]; rfl
    have hstep := stepCaller_start_to_run (ctxs i) t (s.callers i) s.store k
      (by rw [hcs]; rfl) (by rw [hcs]; rfl) hk helig
    right
    refine ⟨i, freshRecord (ctxs i) t, ?_, ?_, ?_, ?_, ?_⟩
    · simp [sysStep, hstep]
    · simp [freshRecord]
    · intro e he
      exact freshRecord_fresh (ctxs i) t e.2
        (hwin (i, t) (List.mem_cons_self _ _) e (List.mem_cons_of_mem _ he))
    · left
      refine ⟨?_, ?_, rfl⟩
      · simp [sysStep, hstep, Function.update_same]
      · simp only [sysStep, Function.update_same, hstep]
        simp [hcs, initCaller]
    · intro j hj
      have hj2 : (sysStep ctxs s (i, t)).callers j = s.callers j := by
        simp [sysStep, Function.update_noteq hj]
      rw [hj2, hcall j]
      exact ⟨rfl, Or.inl ⟨rfl, rfl⟩⟩
  · by_cases hiw : i = w
    · subst hiw
      rcases hw with ⟨hph, hinvk, hstatus⟩ | ⟨hph, hinvk, hstatus⟩ |
        ⟨hph, hinvk, hstatus, hdata⟩
      · have hstep := stepCaller_run_ok (ctxs i) t (s.callers i) s.store
          (vals i) hph (hprod i)
        rw [hstore] at hstep
        right
        refine ⟨i, r, ?_, hhashr, freshForSched_tail _ _ _ hfreshr, ?_, ?_⟩
        · simp [sysStep, hstep, hstore]
        · right; left
          refine ⟨?_, ?_, hstatus⟩
          · simp [sysStep, hstore, hstep, Function.update_same]
          · simp [sysStep, hstore, hstep, Function.update_same]
        · intro j hj
          have hj2 : (sysStep ctxs s (i, t)).callers j = s.callers j := by
            simp [sysStep, Function.update_noteq hj]
          rw [hj2]
          exact hlosers j hj
      · have hstep := stepCaller_storeResult_ok (ctxs i) t (s.callers i) r
          (vals i) hph (hupd i) (hvan i)
        right
        refine ⟨i, { r with
            status := Status.complete
            responseData := some (vals i)
            expiryTimestamp := t + (ctxs i).cfg.expiresAfterSeconds },
          ?_, ?_, ?_, ?_, ?_⟩
        · simp [sysStep, hstore, hstep]
        · simpa using hhashr
        · intro e he
          have h1 : e.2 ≤ freshInProgressExpiry (ctxs i).cfg t :=
            hwin (i, t) (List.mem_cons_self _ _) e (List.mem_cons_of_mem _ he)
          have h2 := freshInProgressExpiry_le (ctxs i).cfg t
          constructor
          · have hexpeq : ({ r with
                status := Status.complete
                responseData := some (vals i)
                expiryTimestamp := t + (ctxs i).cfg.expiresAfterSeconds } :
                IdempotencyRecord).expiryTimestamp
                = t + (ctxs i).cfg.expiresAfterSeconds := rfl
            simp only [recordExpired, hexpeq, decide_eq_false_iff_not]
            omega
          · simp [staleInProgress]
        · right; right
          refine ⟨?_, ?_, rfl, rfl⟩
          · simp [sysStep, hstore, hstep, Function.update_same]
          · simp [sysStep, hstore, hstep, Function.update_same, hinvk]
        · intro j hj
          have hj2 : (sysStep ctxs s (i, t)).callers j = s.callers j := by
            simp [sysStep, Function.update_noteq hj]
          rw [hj2]
          exact hlosers j hj
      · have hstep := stepCaller_finished (ctxs i) t (s.callers i) s.store _
          hph
        have hcal : (sysStep ctxs s (i, t)).callers = s.callers := by
          funext j
          by_cases hj : j = i
          · subst hj
            simp [sysStep, hstep, Function.update_same]
          · simp [sysStep, Function.update_noteq hj]
        have hsto : (sysStep ctxs s (i, t)).store = s.store := by
          simp [sysStep, hstep]
        right
        refine ⟨i, r, ?_, hhashr, freshForSched_tail _ _ _ hfreshr, ?_, ?_⟩
        · rw [hsto]
          exact hstore
        · rw [hcal]
          exact Or.inr (Or.inr ⟨hph, hinvk, hstatus, hdata⟩)
        · intro j hj
          rw [hcal]
          exact hlosers j hj
    · obtain ⟨hinvi, hdisj⟩ := hlosers i hiw
      have hwi : w ≠ i := fun h => hiw h.symm
      have hupdw : (sysStep ctxs s (i, t)).callers w = s.callers w := by
        simp [sysStep, Function.update_noteq hwi]
      have hfr := hfreshr (i, t) (List.mem_cons_self _ _)
      have hstatus : r.status = Status.inProgress ∨
          (r.status = Status.complete ∧ r.responseData = some (vals w)) := by
        rcases hw with ⟨_, _, h⟩ | ⟨_, _, h⟩ | ⟨_, _, h1, h2⟩
        exacts [Or.inl h, Or.inl h, Or.inr ⟨h1, h2⟩]
      rcases hdisj with ⟨hph, hcache⟩ | hph | hph | hph
      · obtain ⟨k, hk⟩ := hext i
        have helig : takeoverEligible s.store t = false := by
          rw [hstore]
          simp [takeoverEligible, hfr.1, hfr.2]
        have hstep := stepCaller_start_to_fetch (ctxs i) t (s.callers i)
          s.store k hph hcache hk helig
        rw [hstore] at hstep
        right
        refine ⟨w, r, ?_, hhashr, freshForSched_tail _ _ _ hfreshr, ?_, ?_⟩
        · simp [sysStep, hstep, hstore]
        · rw [hupdw]
          exact hw
        · intro j hj
          by_cases hji : j = i
          · subst hji
            refine ⟨?_, Or.inr (Or.inl ?_)⟩
            · simp [sysStep, hstore, hstep, Function.update_same, hinvi]
            · simp [sysStep, hstore, hstep, Function.update_same]
          · have hj2 : (sysStep ctxs s (i, t)).callers j = s.callers j := by
              simp [sysStep, Function.update_noteq hji]
            rw [hj2]
            exact hlosers j hj
      · rcases hstatus with hs1 | ⟨hs1, hs2⟩
        · have hstep := stepCaller_fetch_inprogress (ctxs i) t (s.callers i) r
            hph hs1 hfr.2
          right
          refine ⟨w, r, ?_, hhashr, freshForSched_tail _ _ _ hfreshr, ?_, ?_⟩
          · simp [sysStep, hstore, hstep]
          · rw [hupdw]
            exact hw
          · intro j hj
            by_cases hji : j = i
            · subst hji
              refine ⟨?_, Or.inr (Or.inr (Or.inr ?_))⟩
              · simp [sysStep, hstore, hstep, Function.update_same, hinvi]
              · simp [sysStep, hstore, hstep, Function.update_same]
            · have hj2 : (sysStep ctxs s (i, t)).callers j = s.callers j := by
                simp [sysStep, Function.update_noteq hji]
              rw [hj2]
              exact hlosers j hj
        · have hv : validationOk (ctxs i).cfg (callHash (ctxs i)) r = true :=
            validationOk_self _ _ _ (by rw [hhashr]; exact hhash w i)
          have hstep := stepCaller_fetch_complete (ctxs i) t (s.callers i) r
            hph hs1 hfr.1 hv
          right
          refine ⟨w, r, ?_, hhashr, freshForSched_tail _ _ _ hfreshr, ?_, ?_⟩
          · simp [sysStep, hstore, hstep]
          · rw [hupdw]
            exact hw
          · intro j hj
            by_cases hji : j = i
            · subst hji
              refine ⟨?_, Or.inr (Or.inr (Or.inl ?_))⟩
              · simp [sysStep, hstore, hstep, Function.update_same, hinvi]
              · simp [sysStep, hstore, hstep, Function.update_same, hs2]
            · have hj2 : (sysStep ctxs s (i, t)).callers j = s.callers j := by
                simp [sysStep, Function.update_noteq hji]
              rw [hj2]
              exact hlosers j hj
      · have hstep := stepCaller_finished (ctxs i) t (s.callers i) s.store _
          hph
        have hcal : (sysStep ctxs s (i, t)).callers = s.callers := by
          funext j
          by_cases hj : j = i
          · subst hj
            simp [sysStep, hstep, Function.update_same]
          · simp [sysStep, Function.update_noteq hj]
        have hsto : (sysStep ctxs s (i, t)).store = s.store := by
          simp [sysStep, hstep]
        right
        refine ⟨w, r, ?_, hhashr, freshForSched_tail _ _ _ hfreshr, ?_, ?_⟩
        · rw [hsto]
          exact hstore
        · rw [hcal]
          exact hw
        · intro j hj
          rw [hcal]
          exact hlosers j hj
      · have hstep := stepCaller_finished (ctxs i) t (s.callers i) s.store _
          hph
        have hcal : (sysStep ctxs s (i, t)).callers = s.callers := by
          funext j
          by_cases hj : j = i
          · subst hj
            simp [sysStep, hstep, Function.update_same]
          · simp [sysStep, Function.update_noteq hj]
        have hsto : (sysStep ctxs s (i, t)).store = s.store := by
          simp [sysStep, hstep]
        right
        refine ⟨w, r, ?_, hhashr, freshForSched_tail _ _ _ hfreshr, ?_, ?_⟩
        · rw [hsto]
          exact hstore
        · rw [hcal]
          exact hw
        · intro j hj
          rw [hcal]
          exact hlosers j hj

/-- The at-most-one-execution invariant holds after running any schedule
satisfying the window condition. -/
lemma atMostOne_run {n : Nat} (ctxs : Fin n → CallerCtx)
    (vals : Fin n → String)
    (hext : ∀ j, ∃ k, (ctxs j).extracted = some k)
    (hprod : ∀ j, (ctxs j).producer = ProducerOutcome.ok (vals j))
    (hupd : ∀ j, (ctxs j).faults.updateConnFail = false)
    (hvan : ∀ j, (ctxs j).faults.recordVanishesBeforeUpdate = false)
    (hhash : ∀ j j', callHash (ctxs j) = callHash (ctxs j')) :
    ∀ (sched : List (Fin n × Nat)) (s : SysState n),
      schedWithinWindow ctxs sched →
      atMostOneInv ctxs vals sched s →
      atMostOneInv ctxs vals [] (runSched ctxs sched s) := by
  intro sched
  induction sched with
  | nil =>
    intro s _ h
    simpa [runSched] using h
  | cons ev rest ih =>
    intro s hwin hinv
    simp only [runSched]
    exact ih (sysStep ctxs s ev) (schedWithinWindow_tail ctxs ev rest hwin)
      (atMostOne_step ctxs vals hext hprod hupd hvan hhash ev rest s hwin hinv)

end AtMostOneLemmas

/-- C1: for any number of concurrent `process` calls racing on the same key
with no prior record, under any interleaving whose steps all happen while
the first generation is still active (the schedule window condition), with
all producers succeeding and all calls carrying the same payload hash, if
every call runs to completion then there is a winner whose conditional put
was accepted and who alone invoked its producer and completed with its
value, while every other call never invoked its producer and either
replayed the winner value or failed with the in-progress signal. -/
theorem at_most_one_execution {n : Nat} (ctxs : Fin n → CallerCtx)
    (vals : Fin n → String) (keys : Fin n → String)
    (sched : List (Fin n × Nat)) (hn : 0 < n)
    (hext : ∀ j, (ctxs j).extracted = some (keys j))
    (hprod : ∀ j, (ctxs j).producer = ProducerOutcome.ok (vals j))
    (hupd : ∀ j, (ctxs j).faults.updateConnFail = false)
    (hvan : ∀ j, (ctxs j).faults.recordVanishesBeforeUpdate = false)
    (hhash : ∀ j j', callHash (ctxs j) = callHash (ctxs j'))
    (hwin : schedWithinWindow ctxs sched)
    (hdone : ∀ j, ∃ o,
      ((runSched ctxs sched (initSys n none)).callers j).phase
        = Phase.finished o) :
    ∃ w : Fin n,
      ((runSched ctxs sched (initSys n none)).callers w).phase
          = Phase.finished (ProcessOutcome.completedOk (vals w)) ∧
        ((runSched ctxs sched (initSys n none)).callers w).invoked = true ∧
        ∀ j, j ≠ w →
          ((runSched ctxs sched (initSys n none)).callers j).invoked = false ∧
          (((runSched ctxs sched (initSys n none)).callers j).phase
              = Phase.finished (ProcessOutcome.replayed (vals w)) ∨
            ((runSched ctxs sched (initSys n none)).callers j).phase
              = Phase.finished ProcessOutcome.alreadyInProgress) := by
  have hinit : atMostOneInv ctxs vals sched (initSys n none) :=
    Or.inl ⟨rfl, fun j => rfl⟩
  have hfin := atMostOne_run ctxs vals (fun j => ⟨keys j, hext j⟩) hprod hupd
    hvan hhash sched (initSys n none) hwin hinit
  rcases hfin with ⟨_, hall⟩ | ⟨w, r, _, _, _, hw, hlosers⟩
  · exfalso
    obtain ⟨o, ho⟩ := hdone ⟨0, hn⟩
    rw [hall ⟨0, hn⟩] at ho
    simp [initCaller] at ho
  · obtain ⟨o, ho⟩ := hdone w
    rcases hw with ⟨hph, _, _⟩ | ⟨hph, _, _⟩ | ⟨hph, hinvk, _, _⟩
    · rw [hph] at ho
      exact absurd ho (by simp)
    · rw [hph] at ho
      exact absurd ho (by simp)
    · refine ⟨w, hph, hinvk, ?_⟩
      intro j hj
      obtain ⟨hji, hjd⟩ := hlosers j hj
      refine ⟨hji, ?_⟩
      obtain ⟨o', ho'⟩ := hdone j
      rcases hjd with ⟨hphj, _⟩ | hphj | hphj | hphj
      · rw [hphj] at ho'
        exact absurd ho' (by simp)
      · rw [hphj] at ho'
        exact absurd ho' (by simp)
      · exact Or.inl hphj
      · exact Or.inr hphj

/-- Witness for C1 at a concrete race of two callers: the first wins and
completes, the second fails with the in-progress signal and never invokes
its producer. -/
theorem at_most_one_execution_witness :
    ∃ w : Fin 2,
      ((runSched
          ((fun _ => ⟨⟨false, 3600, false, false, none⟩, ⟨false, false, false⟩,
            some "k", none, ProducerOutcome.ok "v"⟩) : Fin 2 → CallerCtx)
          [(0, 0), (1, 0), (1, 0), (0, 0), (0, 0)]
          (initSys 2 none)).callers w).phase
          = Phase.finished (ProcessOutcome.completedOk "v") ∧
        ((runSched
          ((fun _ => ⟨⟨false, 3600, false, false, none⟩, ⟨false, false, false⟩,
            some "k", none, ProducerOutcome.ok "v"⟩) : Fin 2 → CallerCtx)
          [(0, 0), (1, 0), (1, 0), (0, 0), (0, 0)]
          (initSys 2 none)).callers w).invoked = true ∧
        ∀ j, j ≠ w →
          ((runSched
            ((fun _ => ⟨⟨false, 3600, false, false, none⟩, ⟨false, false, false⟩,
              some "k", none, ProducerOutcome.ok "v"⟩) : Fin 2 → CallerCtx)
            [(0, 0), (1, 0), (1, 0), (0, 0), (0, 0)]
            (initSys 2 none)).callers j).invoked = false ∧
          (((runSched
              ((fun _ => ⟨⟨false, 3600, false, false, none⟩, ⟨false, false, false⟩,
                some "k", none, ProducerOutcome.ok "v"⟩) : Fin 2 → CallerCtx)
              [(0, 0), (1, 0), (1, 0), (0, 0), (0, 0)]
              (initSys 2 none)).callers j).phase
              = Phase.finished (ProcessOutcome.replayed "v") ∨
            ((runSched
              ((fun _ => ⟨⟨false, 3600, false, false, none⟩, ⟨false, false, false⟩,
                some "k", none, ProducerOutcome.ok "v"⟩) : Fin 2 → CallerCtx)
              [(0, 0), (1, 0), (1, 0), (0, 0), (0, 0)]
              (initSys 2 none)).callers j).phase
              = Phase.finished ProcessOutcome.alreadyInProgress) := by
  exact at_most_one_execution
    ((fun _ => ⟨⟨false, 3600, false, false, none⟩, ⟨false, false, false⟩,
      some "k", none, ProducerOutcome.ok "v"⟩) : Fin 2 → CallerCtx)
    (fun _ => "v") (fun _ => "k")
    [(0, 0), (1, 0), (1, 0), (0, 0), (0, 0)]
    (by decide) (fun _ => rfl) (fun _ => rfl) (fun _ => rfl) (fun _ => rfl)
    (fun _ _ => rfl) (by unfold schedWithinWindow; decide)
    (by
      intro j
      fin_cases j
      · exact ⟨ProcessOutcome.completedOk "v", by decide⟩
      · exact ⟨ProcessOutcome.alreadyInProgress, by decide⟩)

/-- C4: under any interleaving, a call fails with
`IdempotencyAlreadyInProgressError` exactly in two situations: its conflict
get observed a fresh IN_PROGRESS record after its single conditional put
conflicted, or it observed a takeover-eligible state (expired, stale
in-progress, or logically absent) and the single permitted takeover retry
also conflicted; a fresh IN_PROGRESS observation and a conflicting retry
each deterministically produce that failure, and no caller ever attempts
more than two conditional puts, so the takeover is never retried more than
once. -/
theorem already_in_progress_exactly {n : Nat} (ctxs : Fin n → CallerCtx)
    (sched : List (Fin n × Nat)) (store0 : Option IdempotencyRecord)
    (i : Fin n) :
    ((runSched ctxs sched (initSys n store0)).callers i).puts ≤ 2 ∧
    (∀ ctx t cs (r : IdempotencyRecord), cs.phase = Phase.fetch →
      r.status = Status.inProgress → staleInProgress r t = false →
      (stepCaller ctx t cs (some r)).1.phase
        = Phase.finished ProcessOutcome.alreadyInProgress) ∧
    (∀ ctx t cs store, cs.phase = Phase.retry →
      takeoverEligible store t = false →
      (stepCaller ctx t cs store).1.phase
        = Phase.finished ProcessOutcome.alreadyInProgress) ∧
    (((runSched ctxs sched (initSys n store0)).callers i).phase
        = Phase.finished ProcessOutcome.alreadyInProgress →
      ∃ obs t,
        ((runSched ctxs sched (initSys n store0)).callers i).observed
            = some (obs, t) ∧
          ((((runSched ctxs sched (initSys n store0)).callers i).puts = 1 ∧
              ∃ r, obs = some r ∧ r.status = Status.inProgress ∧
                staleInProgress r t = false) ∨
            (((runSched ctxs sched (initSys n store0)).callers i).puts = 2 ∧
              takeoverEligible obs t = true))) := by
  have hinv : callerInv ((runSched ctxs sched (initSys n store0)).callers i) := by
    refine runSched_callerInv ctxs sched (initSys n store0) ?_ i
    intro j
    simpa [initSys] using callerInv_init none
  refine ⟨callerInv_puts_le _ hinv, ?_, ?_, hinv.2⟩
  · intro ctx t cs r hph hst hstale
    simp [stepCaller, hph, hst, hstale]
  · intro ctx t cs store hph helig
    simp [stepCaller, hph, attemptPut, helig]

/-- Witness for C4 at a concrete race: two callers, the second conflicts on
its put, observes the fresh IN_PROGRESS record of the first and fails with
the in-progress signal after a single put. -/
theorem already_in_progress_exactly_witness :
    ((runSched
        ((fun _ => ⟨⟨false, 3600, false, false, none⟩, ⟨false, false, false⟩,
          some "k", none, ProducerOutcome.ok "v"⟩) : Fin 2 → CallerCtx)
        [(0, 0), (1, 0), (1, 0)] (initSys 2 none)).callers 1).puts ≤ 2 ∧
    (∃ obs t,
      ((runSched
          ((fun _ => ⟨⟨false, 3600, false, false, none⟩, ⟨false, false, false⟩,
            some "k", none, ProducerOutcome.ok "v"⟩) : Fin 2 → CallerCtx)
          [(0, 0), (1, 0), (1, 0)] (initSys 2 none)).callers 1).observed
          = some (obs, t) ∧
        ((((runSched
            ((fun _ => ⟨⟨false, 3600, false, false, none⟩, ⟨false, false, false⟩,
              some "k", none, ProducerOutcome.ok "v"⟩) : Fin 2 → CallerCtx)
            [(0, 0), (1, 0), (1, 0)] (initSys 2 none)).callers 1).puts = 1 ∧
            ∃ r, obs = some r ∧ r.status = Status.inProgress ∧
              staleInProgress r t = false) ∨
          (((runSched
            ((fun _ => ⟨⟨false, 3600, false, false, none⟩, ⟨false, false, false⟩,
              some "k", none, ProducerOutcome.ok "v"⟩) : Fin 2 → CallerCtx)
            [(0, 0), (1, 0), (1, 0)] (initSys 2 none)).callers 1).puts = 2 ∧
            takeoverEligible obs t = true))) := by
  have h := already_in_progress_exactly
    ((fun _ => ⟨⟨false, 3600, false, false, none⟩, ⟨false, false, false⟩,
      some "k", none, ProducerOutcome.ok "v"⟩) : Fin 2 → CallerCtx)
    [(0, 0), (1, 0), (1, 0)] none 1
  exact ⟨h.1, h.2.2.2 (by decide)⟩

/-- C5: the observed state of a stored record decays with wall-clock time: a
COMPLETE record whose `expiryTimestamp` is in the past is treated as absent,
so a new `process` call with the same key re-invokes the producer and
completes; and an IN_PROGRESS record whose `inProgressExpiryTimestamp` is in
the past is reclaimable, so a new `process` call succeeds via takeover and
invokes the producer exactly once (one accepted put, one update, one
producer invocation). -/
theorem expired_records_reclaimed (cfg : IdempotencyConfig) (f : StoreFaults)
    (k v : String) (vh : Option String) (now : Nat) (r : IdempotencyRecord)
    (hupd : f.updateConnFail = false)
    (hvan : f.recordVanishesBeforeUpdate = false) :
    (r.status = Status.complete → recordExpired r now = true →
      (processSeq ⟨cfg, f, some k, vh, ProducerOutcome.ok v⟩ now (some r) none).1.invoked
          = true ∧
        (processSeq ⟨cfg, f, some k, vh, ProducerOutcome.ok v⟩ now (some r) none).1.phase
          = Phase.finished (ProcessOutcome.completedOk v) ∧
        (processSeq ⟨cfg, f, some k, vh, ProducerOutcome.ok v⟩ now (some r) none).1.trace
          = [StoreOp.put, StoreOp.update]) ∧
    (staleInProgress r now = true →
      (processSeq ⟨cfg, f, some k, vh, ProducerOutcome.ok v⟩ now (some r) none).1.invoked
          = true ∧
        (processSeq ⟨cfg, f, some k, vh, ProducerOutcome.ok v⟩ now (some r) none).1.phase
          = Phase.finished (ProcessOutcome.completedOk v) ∧
        (processSeq ⟨cfg, f, some k, vh, ProducerOutcome.ok v⟩ now (some r) none).1.trace
          = [StoreOp.put, StoreOp.update]) := by
  have H : ∀ _h : takeoverEligible (some r) now = true,
      (processSeq ⟨cfg, f, some k, vh, ProducerOutcome.ok v⟩ now (some r) none).1.invoked
          = true ∧
        (processSeq ⟨cfg, f, some k, vh, ProducerOutcome.ok v⟩ now (some r) none).1.phase
          = Phase.finished (ProcessOutcome.completedOk v) ∧
        (processSeq ⟨cfg, f, some k, vh, ProducerOutcome.ok v⟩ now (some r) none).1.trace
          = [StoreOp.put, StoreOp.update] := by
    intro helig
    rw [processSeq_owner_ok cfg f k v vh now (some r) helig hupd hvan]
    exact ⟨rfl, rfl, rfl⟩
  constructor
  · intro _ h2
    exact H (by simp [takeoverEligible, h2])
  · intro h
    exact H (by simp [takeoverEligible, h])

/-- Witness for C5 at concrete inputs: an expired COMPLETE record and a
stale IN_PROGRESS record, both reclaimed at time 100. -/
theorem expired_records_reclaimed_witness :
    ((processSeq ⟨⟨false, 3600, false, false, none⟩, ⟨false, false, false⟩,
        some "k", none, ProducerOutcome.ok "v"⟩ 100
        (some ⟨Status.complete, 50, none, some "old", none⟩) none).1.invoked
        = true) ∧
    ((processSeq ⟨⟨false, 3600, false, false, none⟩, ⟨false, false, false⟩,
        some "k", none, ProducerOutcome.ok "v"⟩ 100
        (some ⟨Status.inProgress, 500, some 80, none, none⟩) none).1.invoked
        = true) := by
  refine ⟨?_, ?_⟩
  · exact (expired_records_reclaimed ⟨false, 3600, false, false, none⟩
      ⟨false, false, false⟩ "k" "v" none 100
      ⟨Status.complete, 50, none, some "old", none⟩ rfl rfl).1 rfl (by decide) |>.1
  · exact (expired_records_reclaimed ⟨false, 3600, false, false, none⟩
      ⟨false, false, false⟩ "k" "v" none 100
      ⟨Status.inProgress, 500, some 80, none, none⟩ rfl rfl).2 (by decide) |>.1

/-- C6: when the producer has run successfully but the subsequent update of
the record to COMPLETE fails, either by a transport failure or because the
record vanished, the call surfaces `IdempotencyPersistenceLayerError`
rather than returning the produced result, and the failing update is
attempted exactly once, with no internal retry of the critical put or
update operation. -/
theorem update_failure_surfaced (cfg : IdempotencyConfig) (f : StoreFaults)
    (k v : String) (vh : Option String) (now : Nat)
    (store : Option IdempotencyRecord)
    (helig : takeoverEligible store now = true)
    (hfault : f.updateConnFail = true ∨ f.recordVanishesBeforeUpdate = true) :
    (processSeq ⟨cfg, f, some k, vh, ProducerOutcome.ok v⟩ now store none).1.phase
        = Phase.finished ProcessOutcome.persistenceError ∧
      (processSeq ⟨cfg, f, some k, vh, ProducerOutcome.ok v⟩ now store none).1.invoked
        = true ∧
      (processSeq ⟨cfg, f, some k, vh, ProducerOutcome.ok v⟩ now store none).1.trace
        = [StoreOp.put, StoreOp.update] := by
  rcases hfault with h | h
  · refine ⟨?_, ?_, ?_⟩ <;>
      simp [processSeq, stepPair, stepCaller, initCaller, attemptPut,
        deriveKey, helig, h]
  · cases hu : f.updateConnFail <;>
      · refine ⟨?_, ?_, ?_⟩ <;>
          simp [processSeq, stepPair, stepCaller, initCaller, attemptPut,
            deriveKey, helig, h, hu]

/-- Witness for C6 at concrete inputs: a connection failure on the update
and a vanished record at update time both surface the persistence error. -/
theorem update_failure_surfaced_witness :
    ((processSeq ⟨⟨false, 3600, false, false, none⟩, ⟨true, false, false⟩,
        some "k", none, ProducerOutcome.ok "v"⟩ 0 none none).1.phase
        = Phase.finished ProcessOutcome.persistenceError) ∧
    ((processSeq ⟨⟨false, 3600, false, false, none⟩, ⟨false, false, true⟩,
        some "k", none, ProducerOutcome.ok "v"⟩ 0 none none).1.phase
        = Phase.finished ProcessOutcome.persistenceError) := by
  refine ⟨?_, ?_⟩
  · exact (update_failure_surfaced ⟨false, 3600, false, false, none⟩
      ⟨true, false, false⟩ "k" "v" none 0 none rfl (Or.inl rfl)).1
  · exact (update_failure_surfaced ⟨false, 3600, false, false, none⟩
      ⟨false, false, true⟩ "k" "v" none 0 none rfl (Or.inr rfl)).1

/-- C7: when the conflict-time get returns a COMPLETE, unexpired record and
payload validation is configured with a stored payload hash differing from
the hash of the current call, the call fails with
`IdempotencyValidationError`, does not invoke the producer, and does not
return the stored response data. -/
theorem validation_mismatch_rejects (cfg : IdempotencyConfig)
    (f : StoreFaults) (now : Nat) (r : IdempotencyRecord) (k h2 : String)
    (prod : ProducerOutcome)
    (hval : cfg.payloadValidationEnabled = true)
    (hst : r.status = Status.complete)
    (hexp : recordExpired r now = false)
    (hmm : r.payloadHash ≠ some h2) :
    (processSeq ⟨cfg, f, some k, some h2, prod⟩ now (some r) none).1.phase
        = Phase.finished ProcessOutcome.validationError ∧
      (processSeq ⟨cfg, f, some k, some h2, prod⟩ now (some r) none).1.invoked
        = false := by
  refine ⟨?_, ?_⟩ <;>
    simp [processSeq, stepPair, stepCaller, initCaller, attemptPut, deriveKey,
      takeoverEligible, staleInProgress, validationOk, callHash, cacheHit,
      hval, hst, hexp, hmm]

/-- Witness for C7 at a concrete input: stored hash h1, call hash h2. -/
theorem validation_mismatch_rejects_witness :
    (processSeq ⟨⟨false, 3600, false, true, none⟩, ⟨false, false, false⟩,
        some "k", some "h2", ProducerOutcome.ok "v"⟩ 5
        (some ⟨Status.complete, 10, none, some "r", some "h1"⟩) none).1.phase
      = Phase.finished ProcessOutcome.validationError := by
  exact (validation_mismatch_rejects ⟨false, 3600, false, true, none⟩
    ⟨false, false, false⟩ 5 ⟨Status.complete, 10, none, some "r", some "h1"⟩
    "k" "h2" (ProducerOutcome.ok "v") rfl rfl rfl (by decide)).1

/-- C8: when key extraction yields an empty result, strict mode fails with
`MissingIdempotencyKeyError` before any persistence operation, and lax mode
invokes the producer directly with no persistence operation at all; in both
modes the store is untouched. -/
theorem missing_key_behaviour (cfg : IdempotencyConfig) (f : StoreFaults)
    (vh : Option String) (v : String) (now : Nat)
    (store : Option IdempotencyRecord) :
    (cfg.throwOnNoIdempotencyKey = true →
      (processSeq ⟨cfg, f, none, vh, ProducerOutcome.ok v⟩ now store none).1.phase
          = Phase.finished ProcessOutcome.missingKeyError ∧
        (processSeq ⟨cfg, f, none, vh, ProducerOutcome.ok v⟩ now store none).1.trace
          = [] ∧
        (processSeq ⟨cfg, f, none, vh, ProducerOutcome.ok v⟩ now store none).1.invoked
          = false ∧
        (processSeq ⟨cfg, f, none, vh, ProducerOutcome.ok v⟩ now store none).2
          = store) ∧
    (cfg.throwOnNoIdempotencyKey = false →
      (processSeq ⟨cfg, f, none, vh, ProducerOutcome.ok v⟩ now store none).1.phase
          = Phase.finished (ProcessOutcome.completedOk v) ∧
        (processSeq ⟨cfg, f, none, vh, ProducerOutcome.ok v⟩ now store none).1.trace
          = [] ∧
        (processSeq ⟨cfg, f, none, vh, ProducerOutcome.ok v⟩ now store none).1.invoked
          = true ∧
        (processSeq ⟨cfg, f, none, vh, ProducerOutcome.ok v⟩ now store none).2
          = store) := by
  constructor
  · intro h
    refine ⟨?_, ?_, ?_, ?_⟩ <;>
      simp [processSeq, stepPair, stepCaller, initCaller, deriveKey, h]
  · intro h
    refine ⟨?_, ?_, ?_, ?_⟩ <;>
      simp [processSeq, stepPair, stepCaller, initCaller, deriveKey, h]

/-- Witness for C8 at concrete inputs: strict and lax configurations. -/
theorem missing_key_behaviour_witness :
    ((processSeq ⟨⟨true, 3600, false, false, none⟩, ⟨false, false, false⟩,
        none, none, ProducerOutcome.ok "v"⟩ 0 none none).1.phase
        = Phase.finished ProcessOutcome.missingKeyError) ∧
    ((processSeq ⟨⟨false, 3600, false, false, none⟩, ⟨false, false, false⟩,
        none, none, ProducerOutcome.ok "v"⟩ 0 none none).1.trace = []) := by
  refine ⟨?_, ?_⟩
  · exact (missing_key_behaviour ⟨true, 3600, false, false, none⟩
      ⟨false, false, false⟩ none "v" 0 none).1 rfl |>.1
  · exact (missing_key_behaviour ⟨false, 3600, false, false, none⟩
      ⟨false, false, false⟩ none "v" 0 none).2 rfl |>.2.1

/-- C2: after a first `process` call for the key completed successfully, a
second sequential call with the same key and the same validation hash made
before the stored `expiryTimestamp` elapses returns the same response value
as the first call without invoking its producer, whether its local cache is
empty or carries over the cache left by the first call. -/
theorem replay_idempotence (cfg : IdempotencyConfig) (f1 f2 : StoreFaults)
    (k v : String) (vh : Option String) (prod2 : ProducerOutcome)
    (now1 now2 : Nat) (cache2 : Option IdempotencyRecord)
    (hupd : f1.updateConnFail = false)
    (hvan : f1.recordVanishesBeforeUpdate = false)
    (hnotexp : now2 ≤ now1 + cfg.expiresAfterSeconds)
    (hcache : cache2 = none ∨
      cache2 =
        (processSeq ⟨cfg, f1, some k, vh, ProducerOutcome.ok v⟩ now1 none none).1.cache) :
    (processSeq ⟨cfg, f1, some k, vh, ProducerOutcome.ok v⟩ now1 none none).1.phase
        = Phase.finished (ProcessOutcome.completedOk v) ∧
      (processSeq ⟨cfg, f2, some k, vh, prod2⟩ now2
          (processSeq ⟨cfg, f1, some k, vh, ProducerOutcome.ok v⟩ now1 none none).2
          cache2).1.invoked = false ∧
      (processSeq ⟨cfg, f2, some k, vh, prod2⟩ now2
          (processSeq ⟨cfg, f1, some k, vh, ProducerOutcome.ok v⟩ now1 none none).2
          cache2).1.phase = Phase.finished (ProcessOutcome.replayed v) := by
  have H1 := processSeq_owner_ok cfg f1 k v vh now1 none rfl hupd hvan
  rw [H1] at hcache ⊢
  have hlt : ¬ (now1 + cfg.expiresAfterSeconds < now2) := by omega
  have Hstore :
      (processSeq ⟨cfg, f2, some k, vh, prod2⟩ now2
          (some (completedFreshRecord ⟨cfg, f1, some k, vh, ProducerOutcome.ok v⟩ now1 v))
          none).1.invoked = false ∧
        (processSeq ⟨cfg, f2, some k, vh, prod2⟩ now2
          (some (completedFreshRecord ⟨cfg, f1, some k, vh, ProducerOutcome.ok v⟩ now1 v))
          none).1.phase = Phase.finished (ProcessOutcome.replayed v) := by
    refine ⟨?_, ?_⟩ <;>
      simp [processSeq, stepPair, stepCaller, initCaller, attemptPut,
        deriveKey, takeoverEligible, staleInProgress, recordExpired,
        validationOk, callHash, completedFreshRecord, hlt]
  rcases hcache with h | h
  · subst h
    exact ⟨rfl, Hstore⟩
  · subst h
    cases hl : cfg.useLocalCache
    · refine ⟨rfl, ?_, ?_⟩
      · simpa [hl] using Hstore.1
      · simpa [hl] using Hstore.2
    · refine ⟨rfl, ?_, ?_⟩ <;>
        simp [hl, processSeq, stepPair, stepCaller, initCaller, deriveKey,
          cacheHit, recordExpired, validationOk, callHash,
          completedFreshRecord, hlt]

/-- Witness for C2 at concrete inputs: first call at time 0, second call at
time 10 with an empty cache. -/
theorem replay_idempotence_witness :
    (processSeq ⟨⟨false, 3600, false, false, none⟩, ⟨false, false, false⟩,
        some "k", none, ProducerOutcome.ok "v"⟩ 0 none none).1.phase
        = Phase.finished (ProcessOutcome.completedOk "v") ∧
      (processSeq ⟨⟨false, 3600, false, false, none⟩, ⟨false, false, false⟩,
          some "k", none, ProducerOutcome.ok "other"⟩ 10
          (processSeq ⟨⟨false, 3600, false, false, none⟩, ⟨false, false, false⟩,
            some "k", none, ProducerOutcome.ok "v"⟩ 0 none none).2
          none).1.invoked = false ∧
      (processSeq ⟨⟨false, 3600, false, false, none⟩, ⟨false, false, false⟩,
          some "k", none, ProducerOutcome.ok "other"⟩ 10
          (processSeq ⟨⟨false, 3600, false, false, none⟩, ⟨false, false, false⟩,
            some "k", none, ProducerOutcome.ok "v"⟩ 0 none none).2
          none).1.phase = Phase.finished (ProcessOutcome.replayed "v") := by
  exact replay_idempotence ⟨false, 3600, false, false, none⟩
    ⟨false, false, false⟩ ⟨false, false, false⟩ "k" "v" none
    (ProducerOutcome.ok "other") 0 10 none rfl rfl (by decide) (Or.inl rfl)

/-- C3: when the producer fails, the call deletes the record best-effort and
re-raises the original producer error unwrapped: the error is surfaced even
when the deletion itself fails, a successful deletion leaves the key absent,
and an immediately subsequent call with the same key invokes its producer
again instead of failing as in progress. -/
theorem producer_failure_cleanup (cfg cfg2 : IdempotencyConfig)
    (f f2 : StoreFaults) (k k2 v e : String) (vh vh2 : Option String)
    (now1 now2 : Nat) (store : Option IdempotencyRecord)
    (helig : takeoverEligible store now1 = true) :
    ((processSeq ⟨cfg, f, some k, vh, ProducerOutcome.err e⟩ now1 store none).1.phase
        = Phase.finished (ProcessOutcome.producerError e) ∧
      (processSeq ⟨cfg, f, some k, vh, ProducerOutcome.err e⟩ now1 store none).1.invoked
        = true) ∧
    (f.deleteConnFail = false →
      (processSeq ⟨cfg, f, some k, vh, ProducerOutcome.err e⟩ now1 store none).2
        = none) ∧
    (f.deleteConnFail = false → f2.updateConnFail = false →
      f2.recordVanishesBeforeUpdate = false →
      (processSeq ⟨cfg2, f2, some k2, vh2, ProducerOutcome.ok v⟩ now2
          (processSeq ⟨cfg, f, some k, vh, ProducerOutcome.err e⟩ now1 store none).2
          none).1.invoked = true ∧
        (processSeq ⟨cfg2, f2, some k2, vh2, ProducerOutcome.ok v⟩ now2
          (processSeq ⟨cfg, f, some k, vh, ProducerOutcome.err e⟩ now1 store none).2
          none).1.phase = Phase.finished (ProcessOutcome.completedOk v)) := by
  have Hdel : ∀ _h : f.deleteConnFail = false,
      (processSeq ⟨cfg, f, some k, vh, ProducerOutcome.err e⟩ now1 store none).2
        = none := by
    intro h
    simp [processSeq, stepPair, stepCaller, initCaller, attemptPut,
      deriveKey, helig, h]
  refine ⟨?_, Hdel, ?_⟩
  · cases hd : f.deleteConnFail <;>
      · refine ⟨?_, ?_⟩ <;>
          simp [processSeq, stepPair, stepCaller, initCaller, attemptPut,
            deriveKey, helig, hd]
  · intro h1 h2 h3
    rw [Hdel h1]
    rw [processSeq_owner_ok cfg2 f2 k2 v vh2 now2 none rfl h2 h3]
    exact ⟨rfl, rfl⟩

/-- Witness for C3 at concrete inputs: a failing producer at time 0 followed
by a successful retry at time 1. -/
theorem producer_failure_cleanup_witness :
    ((processSeq ⟨⟨false, 3600, false, false, none⟩, ⟨false, false, false⟩,
        some "k", none, ProducerOutcome.err "boom"⟩ 0 none none).1.phase
        = Phase.finished (ProcessOutcome.producerError "boom")) ∧
    ((processSeq ⟨⟨false, 3600, false, false, none⟩, ⟨false, false, false⟩,
        some "k", none, ProducerOutcome.ok "v"⟩ 1
        (processSeq ⟨⟨false, 3600, false, false, none⟩, ⟨false, false, false⟩,
          some "k", none, ProducerOutcome.err "boom"⟩ 0 none none).2
        none).1.invoked = true) := by
  have h := producer_failure_cleanup ⟨false, 3600, false, false, none⟩
    ⟨false, 3600, false, false, none⟩ ⟨false, false, false⟩
    ⟨false, false, false⟩ "k" "k" "v" "boom" none none 0 1 none rfl
  exact ⟨h.1.1, (h.2.2 rfl rfl rfl).1⟩

/-- C9: with the local cache enabled, a cached record short-circuits the
store round-trip exactly when it is COMPLETE, unexpired at read time, and
validation-matching: in that case the call replays the cached response with
no persistence operation and the store untouched; in every other case the
first action of the call is the conditional put against the store, so the
cache never decides generation ownership. -/
theorem cache_fast_path_only (cfg : IdempotencyConfig) (f : StoreFaults)
    (k : String) (vh : Option String) (prod : ProducerOutcome) (now : Nat)
    (store : Option IdempotencyRecord) (c : IdempotencyRecord)
    (hl : cfg.useLocalCache = true) :
    ((c.status = Status.complete ∧ recordExpired c now = false ∧
        validationOk cfg (callHash ⟨cfg, f, some k, vh, prod⟩) c = true) →
      (processSeq ⟨cfg, f, some k, vh, prod⟩ now store (some c)).1.phase
          = Phase.finished (ProcessOutcome.replayed (c.responseData.getD "")) ∧
        (processSeq ⟨cfg, f, some k, vh, prod⟩ now store (some c)).1.trace = [] ∧
        (processSeq ⟨cfg, f, some k, vh, prod⟩ now store (some c)).2 = store ∧
        (processSeq ⟨cfg, f, some k, vh, prod⟩ now store (some c)).1.invoked
          = false) ∧
    (cacheHit ⟨cfg, f, some k, vh, prod⟩ now c = false →
      (stepCaller ⟨cfg, f, some k, vh, prod⟩ now (initCaller (some c)) store).1.trace
        = [StoreOp.put]) := by
  constructor
  · rintro ⟨h1, h2, h3⟩
    refine ⟨?_, ?_, ?_, ?_⟩ <;>
      simp [processSeq, stepPair, stepCaller, initCaller, deriveKey,
        cacheHit, hl, h1, h2, h3]
  · intro h
    cases he : takeoverEligible store now <;>
      simp [stepCaller, initCaller, deriveKey, attemptPut, hl, h, he]

/-- Witness for C9 at concrete inputs: a fresh COMPLETE cached record is
replayed with no store operation, and a stale cached record forces the
conditional put. -/
theorem cache_fast_path_only_witness :
    ((processSeq ⟨⟨false, 3600, true, false, none⟩, ⟨false, false, false⟩,
        some "k", none, ProducerOutcome.ok "w"⟩ 5 none
        (some ⟨Status.complete, 10, none, some "v", none⟩)).1.trace = []) ∧
    ((stepCaller ⟨⟨false, 3600, true, false, none⟩, ⟨false, false, false⟩,
        some "k", none, ProducerOutcome.ok "w"⟩ 20
        (initCaller (some ⟨Status.complete, 10, none, some "v", none⟩))
        none).1.trace = [StoreOp.put]) := by
  refine ⟨?_, ?_⟩
  · exact ((cache_fast_path_only ⟨false, 3600, true, false, none⟩
      ⟨false, false, false⟩ "k" none (ProducerOutcome.ok "w") 5 none
      ⟨Status.complete, 10, none, some "v", none⟩ rfl).1
      ⟨rfl, rfl, rfl⟩).2.1
  · exact (cache_fast_path_only ⟨false, 3600, true, false, none⟩
      ⟨false, false, false⟩ "k" none (ProducerOutcome.ok "w") 20 none
      ⟨Status.complete, 10, none, some "v", none⟩ rfl).2 (by decide)

/-- C10: once the wrapped function returned successfully, an error raised by
follow-up code outside its scope leaves the persisted record unchanged as
the COMPLETE record holding the response, so idempotency is preserved for
the wrapped function; only a failure inside the wrapped function deletes the
record. -/
theorem outer_error_frame (cfg : IdempotencyConfig) (f : StoreFaults)
    (k v e : String) (vh : Option String) (now : Nat)
    (store : Option IdempotencyRecord)
    (helig : takeoverEligible store now = true)
    (hupd : f.updateConnFail = false)
    (hvan : f.recordVanishesBeforeUpdate = false) :
    (∀ post,
      (invokeWithPost ⟨cfg, f, some k, vh, ProducerOutcome.ok v⟩ now store none
          post).2
        = some (completedFreshRecord ⟨cfg, f, some k, vh, ProducerOutcome.ok v⟩
            now v)) ∧
    (f.deleteConnFail = false → ∀ post,
      (invokeWithPost ⟨cfg, f, some k, vh, ProducerOutcome.err e⟩ now store none
          post).2
        = none) := by
  constructor
  · intro post
    unfold invokeWithPost
    rw [processSeq_owner_ok cfg f k v vh now store helig hupd hvan]
    cases post <;> rfl
  · intro h post
    unfold invokeWithPost
    cases post <;>
      simp [processSeq, stepPair, stepCaller, initCaller, attemptPut,
        deriveKey, helig, h]

/-- Witness for C10 at concrete inputs: a follow-up error leaves the
COMPLETE record in place, a producer error deletes the record. -/
theorem outer_error_frame_witness :
    ((invokeWithPost ⟨⟨false, 3600, false, false, none⟩, ⟨false, false, false⟩,
        some "k", none, ProducerOutcome.ok "v"⟩ 0 none none
        (PostOutcome.err "late")).2
      = some (completedFreshRecord ⟨⟨false, 3600, false, false, none⟩,
          ⟨false, false, false⟩, some "k", none, ProducerOutcome.ok "v"⟩ 0 "v")) ∧
    ((invokeWithPost ⟨⟨false, 3600, false, false, none⟩, ⟨false, false, false⟩,
        some "k", none, ProducerOutcome.err "boom"⟩ 0 none none
        PostOutcome.ok).2 = none) := by
  have h := outer_error_frame ⟨false, 3600, false, false, none⟩
    ⟨false, false, false⟩ "k" "v" "boom" none 0 none rfl rfl rfl
  exact ⟨h.1 (PostOutcome.err "late"), h.2 rfl PostOutcome.ok⟩

end Idem
